import Mathlib

/-
Verification of the table-entity decoding routine `flattenEntity` from
`internal/services/storage/storage_table_entity_resource.go`.

The Go source is:

  func flattenEntity(entity map[string]interface{}) map[string]interface{} {
    delete(entity, "PartitionKey")
    delete(entity, "RowKey")
    delete(entity, "Timestamp")
    result := map[string]interface{}{}
    for k, v := range entity {
      if strings.HasPrefix(k, "odata.") || strings.HasSuffix(k, "@odata.type") {
        continue
      }
      if dtype, ok := entity[k+"@odata.type"]; ok {
        switch dtype {
        case "Edm.Boolean": result[k] = fmt.Sprint(v)
        case "Edm.Double":  result[k] = fmt.Sprintf("%f", v)
        case "Edm.Int32", "Edm.Int64": result[k] = fmt.Sprint(v)
        case "Edm.String":  result[k] = v
        default: log.Printf(...); continue
        }
        result[k+"@odata.type"] = dtype
      } else {
        switch c := v.(type) {
        case bool:    result[k] = fmt.Sprint(v); result[k+"@odata.type"] = "Edm.Boolean"
        case float64:
          f64 := v.(float64)
          if v == float64(int64(f64)) {
            result[k] = fmt.Sprintf("%d", int64(f64)); result[k+"@odata.type"] = "Edm.Int32"
          } else {
            result[k] = fmt.Sprint(v); result[k+"@odata.type"] = "Edm.Double"
          }
        case string:  result[k] = v
        default: log.Printf(...)
        }
      }
    }
    return result
  }

Embedding decisions:
- A Go `map[string]interface{}` is embedded as an association list
  `List (String × Value)`; map semantics (unique keys) is a `Nodup`
  hypothesis on the theorems that need it.  Go's `range` iteration order is
  unspecified; the embedding iterates in list order.  All general theorems
  below are stated via `List.lookup` / key membership and therefore do not
  depend on the chosen order.
- The dynamic values the spec admits for this routine (booleans, 64-bit
  floats decoded from JSON numbers, and strings) form the closed union
  `Value`.
- A Go `float64` is embedded abstractly as `GoFloat`: the record of the four
  observations the routine makes of the value, namely the test
  `v == float64(int64(v))`, the truncation `int64(v)`, the text produced by
  `fmt.Sprint(v)` (shortest `%v` rendering), and the text produced by
  `fmt.Sprintf("%f", v)` (fixed six fractional digits).  Concrete `GoFloat`
  values used in witnesses record the actual Go results for the literal in
  question.
- `delete` on a Go map mutates the caller's map in place; the function is
  therefore embedded as two functions sharing the deletion step:
  `flattenEntityPost` is the content of the argument map after the call,
  and `flattenEntity` the returned map.
-/

/-- Observations the routine makes of a Go `float64` value: the result of
the test `v == float64(int64(v))`, the truncation `int64(v)`, the rendering
`fmt.Sprint(v)` and the rendering `fmt.Sprintf("%f", v)`. -/
structure GoFloat where
  isIntegral : Bool
  intVal : Int
  sprint : String
  sprintf6 : String
deriving DecidableEq

/-- The dynamic (`interface{}`) values reaching the routine: booleans,
JSON-decoded 64-bit floats, and strings. -/
inductive Value where
  | bool : Bool → Value
  | num : GoFloat → Value
  | str : String → Value
deriving DecidableEq

/-- Go's `fmt.Sprint` on the dynamic values in scope. -/
def goSprint : Value → String
  | .bool b => if b then "true" else "false"
  | .num f => f.sprint
  | .str s => s

/-- Go's `fmt.Sprintf("%f", v)` on the dynamic values in scope.  On a
non-numeric operand Go's `%f` verb produces the mismatch text
`%!f(bool=...)` / `%!f(string=...)`. -/
def goSprintfF : Value → String
  | .bool b => "%!f(bool=" ++ (if b then "true" else "false") ++ ")"
  | .num f => f.sprintf6
  | .str s => "%!f(string=" ++ s ++ ")"

/-- Go's `fmt.Sprintf("%d", i)` for an `int64`. -/
def goSprintfD (i : Int) : String := toString i

/-- Go's `strings.HasPrefix`. -/
def goStartsWith (s pre : String) : Bool := pre.data.isPrefixOf s.data

/-- Go's `strings.HasSuffix`. -/
def goEndsWith (s suf : String) : Bool := suf.data.isSuffixOf s.data

/-- The keys of an embedded map. -/
def keysOf (m : List (String × Value)) : List String := m.map Prod.fst

/-- Go map assignment `m[k] = v`: overwrite the binding if the key is
present, otherwise add the binding. -/
def mapSet (m : List (String × Value)) (k : String) (v : Value) : List (String × Value) :=
  if (List.lookup k m).isSome then
    m.map (fun p => if p.1 == k then (k, v) else p)
  else
    m ++ [(k, v)]

/-- The two `switch` statements of the loop body: given the accumulated
`result` map, the current key `k`, the result of the annotation lookup
`entity[k+"@odata.type"]` (first argument of the match) and the current
value `v` (second argument), perform the `result` writes of the matching
`case`.  Go's `switch dtype` compares the `interface{}` value `dtype`
against each string literal, so a non-string or unrecognized `dtype` falls
to `default`. -/
def flattenDispatch (res : List (String × Value)) (k : String) :
    Option Value → Value → List (String × Value)
  | some dtype, v =>
    if dtype == .str "Edm.Boolean" then
      mapSet (mapSet res k (.str (goSprint v))) (k ++ "@odata.type") dtype
    else if dtype == .str "Edm.Double" then
      mapSet (mapSet res k (.str (goSprintfF v))) (k ++ "@odata.type") dtype
    else if dtype == .str "Edm.Int32" || dtype == .str "Edm.Int64" then
      mapSet (mapSet res k (.str (goSprint v))) (k ++ "@odata.type") dtype
    else if dtype == .str "Edm.String" then
      mapSet (mapSet res k v) (k ++ "@odata.type") dtype
    else
      res
  | none, .bool b =>
    mapSet (mapSet res k (.str (goSprint (.bool b)))) (k ++ "@odata.type") (.str "Edm.Boolean")
  | none, .num f =>
    if f.isIntegral then
      mapSet (mapSet res k (.str (goSprintfD f.intVal))) (k ++ "@odata.type") (.str "Edm.Int32")
    else
      mapSet (mapSet res k (.str f.sprint)) (k ++ "@odata.type") (.str "Edm.Double")
  | none, .str s => mapSet res k (.str s)

/-- One iteration of the `for k, v := range entity` loop body of
`flattenEntity`, acting on the accumulated `result` map.  `ent` is the map
the annotation lookup `entity[k+"@odata.type"]` reads (the argument map
after the reserved-key deletions). -/
def flattenStep (ent res : List (String × Value)) (k : String) (v : Value) :
    List (String × Value) :=
  if goStartsWith k "odata." || goEndsWith k "@odata.type" then res
  else flattenDispatch res k (List.lookup (k ++ "@odata.type") ent) v

/-- The `for` loop of `flattenEntity`, iterating `flattenStep` over the
remaining entries. -/
def flattenLoop (ent : List (String × Value)) :
    List (String × Value) → List (String × Value) → List (String × Value)
  | [], res => res
  | (k, v) :: rest, res => flattenLoop ent rest (flattenStep ent res k v)

/-- The content of the caller's `entity` map after `flattenEntity` returns:
the three `delete` statements remove the reserved keys in place. -/
def flattenEntityPost (entity : List (String × Value)) : List (String × Value) :=
  ((entity.filter (fun p => p.1 != "PartitionKey")).filter
      (fun p => p.1 != "RowKey")).filter (fun p => p.1 != "Timestamp")

/-- The return value of `flattenEntity`. -/
def flattenEntity (entity : List (String × Value)) : List (String × Value) :=
  flattenLoop (flattenEntityPost entity) (flattenEntityPost entity) []

/-- The Go literal `3.0`: integral, truncates to 3, `fmt.Sprint` renders it
`"3"`, `%f` renders it `"3.000000"`. -/
def float3_0 : GoFloat := ⟨true, 3, "3", "3.000000"⟩

/-- The input mapping of the end-to-end scenario. -/
def entC1 : List (String × Value) :=
  [("PartitionKey", .str "p"), ("RowKey", .str "r"), ("Timestamp", .str "t"),
   ("count", .num float3_0), ("count@odata.type", .str "Edm.Int64"),
   ("active", .bool true), ("name", .str "x")]

/-- The expected output mapping of the end-to-end scenario. -/
def entC1out : List (String × Value) :=
  [("count", .str "3"), ("count@odata.type", .str "Edm.Int64"),
   ("active", .str "true"), ("active@odata.type", .str "Edm.Boolean"),
   ("name", .str "x")]

/-- C1: on the input `{PartitionKey: "p", RowKey: "r", Timestamp: "t",
count: 3.0, count@odata.type: "Edm.Int64", active: true, name: "x"}` the
decode returns exactly `{count: "3", count@odata.type: "Edm.Int64",
active: "true", active@odata.type: "Edm.Boolean", name: "x"}`. -/
theorem flattenEntity_endToEnd : flattenEntity entC1 = entC1out := by decide

/-! ### Association-list map lemmas -/

theorem lookup_cons_eq {β : Type} (k : String) (w : β) (rest : List (String × β)) :
    List.lookup k ((k, w) :: rest) = some w := by
  simp [List.lookup]

theorem lookup_cons_ne {β : Type} {k b : String} (w : β) (rest : List (String × β))
    (h : k ≠ b) : List.lookup k ((b, w) :: rest) = List.lookup k rest := by
  have hb : (k == b) = false := beq_false_of_ne h
  simp [List.lookup, hb]

theorem lookup_append_of_none {t : String} {m l : List (String × Value)}
    (h : List.lookup t m = none) : List.lookup t (m ++ l) = List.lookup t l := by
  induction m with
  | nil => rfl
  | cons p rest ih =>
    obtain ⟨b, w⟩ := p
    by_cases hb : t = b
    · subst hb; rw [lookup_cons_eq] at h; exact absurd h (by simp)
    · rw [List.cons_append, lookup_cons_ne w _ hb]
      rw [lookup_cons_ne w rest hb] at h
      exact ih h

theorem lookup_append_single_ne {t k : String} {v : Value} (m : List (String × Value))
    (h : t ≠ k) : List.lookup t (m ++ [(k, v)]) = List.lookup t m := by
  induction m with
  | nil => simpa using lookup_cons_ne v [] h
  | cons p rest ih =>
    obtain ⟨b, w⟩ := p
    by_cases hb : t = b
    · subst hb; rw [List.cons_append, lookup_cons_eq, lookup_cons_eq]
    · rw [List.cons_append, lookup_cons_ne w _ hb, lookup_cons_ne w rest hb, ih]

theorem lookup_map_overwrite {k : String} {v w : Value} :
    ∀ {m : List (String × Value)}, List.lookup k m = some w →
      List.lookup k (m.map (fun p => if p.1 == k then (k, v) else p)) = some v := by
  intro m
  induction m with
  | nil => intro h; simp [List.lookup] at h
  | cons p rest ih =>
    obtain ⟨b, u⟩ := p
    intro h
    by_cases hb : b = k
    · subst hb
      simp only [List.map_cons]
      rw [if_pos (by simp)]
      exact lookup_cons_eq _ v _
    · have hk : k ≠ b := fun e => hb e.symm
      simp only [List.map_cons]
      rw [if_neg (by simpa using hb)]
      rw [lookup_cons_ne u rest hk] at h
      rw [lookup_cons_ne u _ hk]
      exact ih h

theorem lookup_map_overwrite_ne {k t : String} {v : Value}
    (h : t ≠ k) : ∀ (m : List (String × Value)),
      List.lookup t (m.map (fun p => if p.1 == k then (k, v) else p)) = List.lookup t m := by
  intro m
  induction m with
  | nil => rfl
  | cons p rest ih =>
    obtain ⟨b, u⟩ := p
    by_cases hb : b = k
    · subst hb
      simp only [List.map_cons]
      rw [if_pos (by simp)]
      rw [lookup_cons_ne v _ h, lookup_cons_ne u rest h, ih]
    · simp only [List.map_cons]
      rw [if_neg (by simpa using hb)]
      by_cases htb : t = b
      · subst htb; rw [lookup_cons_eq, lookup_cons_eq]
      · rw [lookup_cons_ne u _ htb, lookup_cons_ne u rest htb, ih]

theorem lookup_mapSet_self {m : List (String × Value)} {k : String} {v : Value} :
    List.lookup k (mapSet m k v) = some v := by
  unfold mapSet
  cases h : List.lookup k m with
  | none =>
    rw [if_neg (by simp [h])]
    rw [lookup_append_of_none h]
    exact lookup_cons_eq k v []
  | some w =>
    rw [if_pos (by simp [h])]
    exact lookup_map_overwrite h

theorem lookup_mapSet_ne {m : List (String × Value)} {k t : String} {v : Value}
    (h : t ≠ k) : List.lookup t (mapSet m k v) = List.lookup t m := by
  unfold mapSet
  by_cases hs : (List.lookup k m).isSome
  · rw [if_pos hs]; exact lookup_map_overwrite_ne h m
  · rw [if_neg hs]; exact lookup_append_single_ne m h

theorem keysOf_mapSet_sub {m : List (String × Value)} {k : String} {v : Value} {key : String}
    (h : key ∈ keysOf (mapSet m k v)) : key ∈ keysOf m ∨ key = k := by
  unfold mapSet at h
  by_cases hs : (List.lookup k m).isSome
  · rw [if_pos hs] at h
    unfold keysOf at h
    rw [List.map_map] at h
    obtain ⟨p, hp, hkey⟩ := List.mem_map.mp h
    simp only [Function.comp] at hkey
    by_cases hb : p.1 = k
    · right
      rw [if_pos (by simpa using hb)] at hkey
      exact hkey.symm
    · left
      rw [if_neg (by simpa using hb)] at hkey
      exact List.mem_map.mpr ⟨p, hp, hkey⟩
  · rw [if_neg hs] at h
    unfold keysOf at h
    rw [List.map_append] at h
    rcases List.mem_append.mp h with h' | h'
    · exact Or.inl h'
    · right; simpa using h'

theorem lookup_eq_none_of_not_mem_keys {m : List (String × Value)} {k : String}
    (h : k ∉ keysOf m) : List.lookup k m = none := by
  induction m with
  | nil => rfl
  | cons p rest ih =>
    obtain ⟨b, w⟩ := p
    have hb : k ≠ b := by
      intro e; exact h (by simp [keysOf, e])
    rw [lookup_cons_ne w rest hb]
    exact ih (fun e => h (by simp [keysOf] at e ⊢; exact Or.inr e))

theorem mem_keys_of_lookup_some {m : List (String × Value)} {k : String} {w : Value}
    (h : List.lookup k m = some w) : k ∈ keysOf m := by
  by_contra hc
  rw [lookup_eq_none_of_not_mem_keys hc] at h
  exact Option.noConfusion h

/-! ### String lemmas for the key shapes used by the routine -/

theorem isPrefixOf_append_self (p t : List Char) : p.isPrefixOf (p ++ t) = true := by
  induction p with
  | nil => simp [List.isPrefixOf]
  | cons c cs ih => simp [List.isPrefixOf, ih]

theorem goEndsWith_append (k : String) : goEndsWith (k ++ "@odata.type") "@odata.type" = true := by
  unfold goEndsWith
  rw [String.data_append]
  unfold List.isSuffixOf
  rw [List.reverse_append]
  exact isPrefixOf_append_self _ _

theorem append_type_ne_of_no_suffix {k t : String}
    (h : goEndsWith k "@odata.type" = false) : k ≠ t ++ "@odata.type" := by
  intro e
  rw [e, goEndsWith_append] at h
  exact Bool.noConfusion h

theorem append_type_right_cancel {a b : String}
    (h : a ++ "@odata.type" = b ++ "@odata.type") : a = b := by
  have hd : a.data ++ "@odata.type".data = b.data ++ "@odata.type".data := by
    have := congrArg String.data h
    rwa [String.data_append, String.data_append] at this
  exact String.ext (List.append_cancel_right hd)

theorem isPrefixOf_false_append (rest : List Char) :
    ∀ (k p : List Char), '@' ∉ p → p.isPrefixOf k = false →
      p.isPrefixOf (k ++ '@' :: rest) = false := by
  intro k
  induction k with
  | nil =>
    intro p hp h
    cases p with
    | nil => simp [List.isPrefixOf] at h
    | cons c p' =>
      have hc : c ≠ '@' := fun e => hp (e ▸ List.mem_cons_self c p')
      simp [List.isPrefixOf, hc]
  | cons c k' ih =>
    intro p hp h
    cases p with
    | nil => simp [List.isPrefixOf] at h
    | cons a p' =>
      simp only [List.cons_append, List.isPrefixOf] at h ⊢
      cases hac : (a == c) with
      | false => simp [hac]
      | true =>
        simp only [hac, Bool.true_and] at h ⊢
        exact ih p' (fun e => hp (List.mem_cons_of_mem a e)) h

theorem goStartsWith_append_type {k : String}
    (h : goStartsWith k "odata." = false) :
    goStartsWith (k ++ "@odata.type") "odata." = false := by
  unfold goStartsWith at h ⊢
  rw [String.data_append]
  have hdata : "@odata.type".data = '@' :: "odata.type".data := rfl
  rw [hdata]
  exact isPrefixOf_false_append _ k.data "odata.".data (by decide) h

theorem reserved_no_type_suffix :
    goEndsWith "PartitionKey" "@odata.type" = false ∧
    goEndsWith "RowKey" "@odata.type" = false ∧
    goEndsWith "Timestamp" "@odata.type" = false := by decide

/-! ### Lemmas about the reserved-key deletion -/

theorem mem_flattenEntityPost {entity : List (String × Value)} {p : String × Value} :
    p ∈ flattenEntityPost entity ↔
      p ∈ entity ∧ p.1 ≠ "PartitionKey" ∧ p.1 ≠ "RowKey" ∧ p.1 ≠ "Timestamp" := by
  unfold flattenEntityPost
  simp only [List.mem_filter, bne_iff_ne]
  tauto

theorem lookup_filter_ne {m : List (String × Value)} {t r : String} (h : t ≠ r) :
    List.lookup t (m.filter (fun p => p.1 != r)) = List.lookup t m := by
  induction m with
  | nil => rfl
  | cons p rest ih =>
    obtain ⟨b, w⟩ := p
    by_cases hbr : b = r
    · subst hbr
      rw [List.filter_cons_of_neg (by simp)]
      rw [lookup_cons_ne w rest h]
      exact ih
    · rw [List.filter_cons_of_pos (by simpa using hbr)]
      by_cases htb : t = b
      · subst htb; rw [lookup_cons_eq, lookup_cons_eq]
      · rw [lookup_cons_ne w _ htb, lookup_cons_ne w rest htb, ih]

theorem lookup_flattenEntityPost {entity : List (String × Value)} {t : String}
    (h1 : t ≠ "PartitionKey") (h2 : t ≠ "RowKey") (h3 : t ≠ "Timestamp") :
    List.lookup t (flattenEntityPost entity) = List.lookup t entity := by
  unfold flattenEntityPost
  rw [lookup_filter_ne h3, lookup_filter_ne h2, lookup_filter_ne h1]

theorem nodup_keys_flattenEntityPost {entity : List (String × Value)}
    (h : (keysOf entity).Nodup) : (keysOf (flattenEntityPost entity)).Nodup := by
  have hsub : List.Sublist (flattenEntityPost entity) entity := by
    unfold flattenEntityPost
    exact ((List.filter_sublist _).trans (List.filter_sublist _)).trans (List.filter_sublist _)
  exact h.sublist (hsub.map Prod.fst)

/-! ### Frame lemmas: which result keys an iteration can touch -/

theorem flattenStep_frame {ent res : List (String × Value)} {k : String} {v : Value} {t : String}
    (h2 : t ≠ k ++ "@odata.type")
    (h1 : t ≠ k ∨ (goStartsWith k "odata." || goEndsWith k "@odata.type") = true) :
    List.lookup t (flattenStep ent res k v) = List.lookup t res := by
  unfold flattenStep
  by_cases hf : (goStartsWith k "odata." || goEndsWith k "@odata.type") = true
  · rw [if_pos hf]
  · rw [if_neg hf]
    have ht : t ≠ k := h1.resolve_right hf
    cases List.lookup (k ++ "@odata.type") ent with
    | some dtype =>
      simp only [flattenDispatch]
      split_ifs <;> simp [lookup_mapSet_ne h2, lookup_mapSet_ne ht]
    | none =>
      cases v with
      | bool b => simp [flattenDispatch, lookup_mapSet_ne h2, lookup_mapSet_ne ht]
      | num f =>
        simp only [flattenDispatch]
        split_ifs <;> simp [lookup_mapSet_ne h2, lookup_mapSet_ne ht]
      | str s => simp [flattenDispatch, lookup_mapSet_ne ht]

theorem flattenLoop_frame {ent : List (String × Value)} {t : String} :
    ∀ {todo res : List (String × Value)},
      (∀ p ∈ todo,
        (t ≠ p.1 ∨ (goStartsWith p.1 "odata." || goEndsWith p.1 "@odata.type") = true) ∧
        t ≠ p.1 ++ "@odata.type") →
      List.lookup t (flattenLoop ent todo res) = List.lookup t res := by
  intro todo
  induction todo with
  | nil => intro res _; rfl
  | cons p rest ih =>
    intro res h
    obtain ⟨k, v⟩ := p
    have hp := h (k, v) (List.mem_cons_self _ _)
    show List.lookup t (flattenLoop ent rest (flattenStep ent res k v)) = _
    rw [ih (fun q hq => h q (List.mem_cons_of_mem _ hq))]
    exact flattenStep_frame hp.2 hp.1

theorem flattenLoop_append {ent : List (String × Value)} (xs ys : List (String × Value)) :
    ∀ res, flattenLoop ent (xs ++ ys) res = flattenLoop ent ys (flattenLoop ent xs res) := by
  induction xs with
  | nil => intro res; rfl
  | cons p rest ih =>
    intro res
    obtain ⟨k, v⟩ := p
    show flattenLoop ent (rest ++ ys) (flattenStep ent res k v) = _
    exact ih _

/-! ### Key characterization -/

theorem keysOf_double_mapSet_sub {res : List (String × Value)} {k k2 : String} {a b : Value}
    {key : String} (h : key ∈ keysOf (mapSet (mapSet res k a) k2 b)) :
    key ∈ keysOf res ∨ key = k ∨ key = k2 := by
  rcases keysOf_mapSet_sub h with h' | h'
  · rcases keysOf_mapSet_sub h' with h'' | h''
    · exact Or.inl h''
    · exact Or.inr (Or.inl h'')
  · exact Or.inr (Or.inr h')

theorem keysOf_flattenStep_sub {ent res : List (String × Value)} {k : String} {v : Value}
    {key : String} (h : key ∈ keysOf (flattenStep ent res k v)) :
    key ∈ keysOf res ∨
      ((goStartsWith k "odata." = false ∧ goEndsWith k "@odata.type" = false) ∧
        (key = k ∨ key = k ++ "@odata.type")) := by
  unfold flattenStep at h
  by_cases hf : (goStartsWith k "odata." || goEndsWith k "@odata.type") = true
  · rw [if_pos hf] at h
    exact Or.inl h
  · have hff : goStartsWith k "odata." = false ∧ goEndsWith k "@odata.type" = false := by
      constructor
      · cases hx : goStartsWith k "odata." with
        | false => rfl
        | true => exact absurd (by rw [hx]; rfl) hf
      · cases hx : goEndsWith k "@odata.type" with
        | false => rfl
        | true => exact absurd (by rw [hx]; simp) hf
    rw [if_neg hf] at h
    cases hl : List.lookup (k ++ "@odata.type") ent with
    | some dtype =>
      rw [hl] at h
      simp only [flattenDispatch] at h
      split_ifs at h <;>
        first
        | exact Or.inl h
        | (rcases keysOf_double_mapSet_sub h with h' | h' | h'
           · exact Or.inl h'
           · exact Or.inr ⟨hff, Or.inl h'⟩
           · exact Or.inr ⟨hff, Or.inr h'⟩)
    | none =>
      rw [hl] at h
      cases v with
      | bool b =>
        simp only [flattenDispatch] at h
        rcases keysOf_double_mapSet_sub h with h' | h' | h'
        · exact Or.inl h'
        · exact Or.inr ⟨hff, Or.inl h'⟩
        · exact Or.inr ⟨hff, Or.inr h'⟩
      | num f =>
        simp only [flattenDispatch] at h
        split_ifs at h <;>
          (rcases keysOf_double_mapSet_sub h with h' | h' | h'
           · exact Or.inl h'
           · exact Or.inr ⟨hff, Or.inl h'⟩
           · exact Or.inr ⟨hff, Or.inr h'⟩)
      | str s =>
        simp only [flattenDispatch] at h
        rcases keysOf_mapSet_sub h with h' | h'
        · exact Or.inl h'
        · exact Or.inr ⟨hff, Or.inl h'⟩

theorem keysOf_flattenLoop_sub {ent : List (String × Value)} :
    ∀ {todo res : List (String × Value)} {key : String},
      key ∈ keysOf (flattenLoop ent todo res) →
      key ∈ keysOf res ∨ ∃ p ∈ todo,
        (goStartsWith p.1 "odata." = false ∧ goEndsWith p.1 "@odata.type" = false) ∧
        (key = p.1 ∨ key = p.1 ++ "@odata.type") := by
  intro todo
  induction todo with
  | nil => intro res key h; exact Or.inl h
  | cons p rest ih =>
    intro res key h
    obtain ⟨k, v⟩ := p
    have h' : key ∈ keysOf (flattenLoop ent rest (flattenStep ent res k v)) := h
    rcases ih h' with h'' | ⟨q, hq, hq2⟩
    · rcases keysOf_flattenStep_sub h'' with h3 | h3
      · exact Or.inl h3
      · exact Or.inr ⟨(k, v), List.mem_cons_self _ _, h3⟩
    · exact Or.inr ⟨q, List.mem_cons_of_mem _ hq, hq2⟩

theorem keysOf_flattenEntity_sub {entity : List (String × Value)} {key : String}
    (h : key ∈ keysOf (flattenEntity entity)) :
    ∃ p ∈ flattenEntityPost entity,
      (goStartsWith p.1 "odata." = false ∧ goEndsWith p.1 "@odata.type" = false) ∧
      (key = p.1 ∨ key = p.1 ++ "@odata.type") := by
  unfold flattenEntity at h
  rcases keysOf_flattenLoop_sub h with h' | h'
  · simp [keysOf] at h'
  · exact h'

/-! ### Reducing a key's output bindings to its own loop iteration -/

theorem flattenStep_blank {ent res : List (String × Value)} {k : String} {v : Value}
    (hsuf : goEndsWith k "@odata.type" = false)
    (hk : List.lookup k res = none)
    (ha : List.lookup (k ++ "@odata.type") res = none) :
    List.lookup k (flattenStep ent res k v) =
      List.lookup k (flattenStep ent [] k v) ∧
    List.lookup (k ++ "@odata.type") (flattenStep ent res k v) =
      List.lookup (k ++ "@odata.type") (flattenStep ent [] k v) := by
  have hne : k ≠ k ++ "@odata.type" := append_type_ne_of_no_suffix hsuf
  have hne' : k ++ "@odata.type" ≠ k := fun e => hne e.symm
  unfold flattenStep
  by_cases hf : (goStartsWith k "odata." || goEndsWith k "@odata.type") = true
  · rw [if_pos hf, if_pos hf]
    exact ⟨by rw [hk]; rfl, by rw [ha]; rfl⟩
  · rw [if_neg hf, if_neg hf]
    cases List.lookup (k ++ "@odata.type") ent with
    | some dtype =>
      simp only [flattenDispatch]
      split_ifs <;>
        first
        | exact ⟨by rw [hk]; rfl, by rw [ha]; rfl⟩
        | exact ⟨by rw [lookup_mapSet_ne hne, lookup_mapSet_ne hne,
                        lookup_mapSet_self, lookup_mapSet_self],
                 by rw [lookup_mapSet_self, lookup_mapSet_self]⟩
    | none =>
      cases v with
      | bool b =>
        simp only [flattenDispatch]
        exact ⟨by rw [lookup_mapSet_ne hne, lookup_mapSet_ne hne,
                      lookup_mapSet_self, lookup_mapSet_self],
               by rw [lookup_mapSet_self, lookup_mapSet_self]⟩
      | num f =>
        simp only [flattenDispatch]
        split_ifs <;>
          exact ⟨by rw [lookup_mapSet_ne hne, lookup_mapSet_ne hne,
                        lookup_mapSet_self, lookup_mapSet_self],
                 by rw [lookup_mapSet_self, lookup_mapSet_self]⟩
      | str s =>
        simp only [flattenDispatch]
        refine ⟨by rw [lookup_mapSet_self, lookup_mapSet_self], ?_⟩
        rw [lookup_mapSet_ne hne', lookup_mapSet_ne hne', ha]
        rfl

theorem flattenEntity_lookup_step {entity : List (String × Value)} {k : String} {v : Value}
    (hN : (keysOf entity).Nodup) (hk : (k, v) ∈ entity)
    (hr1 : k ≠ "PartitionKey") (hr2 : k ≠ "RowKey") (hr3 : k ≠ "Timestamp")
    (hsuf : goEndsWith k "@odata.type" = false) :
    List.lookup k (flattenEntity entity) =
      List.lookup k (flattenStep (flattenEntityPost entity) [] k v) ∧
    List.lookup (k ++ "@odata.type") (flattenEntity entity) =
      List.lookup (k ++ "@odata.type") (flattenStep (flattenEntityPost entity) [] k v) := by
  have hpost : (k, v) ∈ flattenEntityPost entity :=
    mem_flattenEntityPost.mpr ⟨hk, hr1, hr2, hr3⟩
  have hN' : (keysOf (flattenEntityPost entity)).Nodup := nodup_keys_flattenEntityPost hN
  obtain ⟨l₁, l₂, hsplit⟩ := List.append_of_mem hpost
  have hkeys : keysOf (flattenEntityPost entity) = keysOf l₁ ++ k :: keysOf l₂ := by
    rw [hsplit]; simp [keysOf]
  rw [hkeys] at hN'
  have hmid := List.nodup_middle.mp hN'
  have hnotin := (List.nodup_cons.mp hmid).1
  have hk1 : k ∉ keysOf l₁ := fun e => hnotin (List.mem_append.mpr (Or.inl e))
  have hk2 : k ∉ keysOf l₂ := fun e => hnotin (List.mem_append.mpr (Or.inr e))
  have hre : flattenEntity entity =
      flattenLoop (flattenEntityPost entity) l₂
        (flattenStep (flattenEntityPost entity)
          (flattenLoop (flattenEntityPost entity) l₁ []) k v) := by
    calc flattenEntity entity
        = flattenLoop (flattenEntityPost entity) (l₁ ++ (k, v) :: l₂) [] :=
          congrArg (fun x => flattenLoop (flattenEntityPost entity) x []) hsplit
      _ = flattenLoop (flattenEntityPost entity) ((k, v) :: l₂)
            (flattenLoop (flattenEntityPost entity) l₁ []) := flattenLoop_append _ _ _
      _ = flattenLoop (flattenEntityPost entity) l₂
            (flattenStep (flattenEntityPost entity)
              (flattenLoop (flattenEntityPost entity) l₁ []) k v) := rfl
  have hcondk : ∀ (l : List (String × Value)), k ∉ keysOf l → ∀ p ∈ l,
      (k ≠ p.1 ∨ (goStartsWith p.1 "odata." || goEndsWith p.1 "@odata.type") = true) ∧
      k ≠ p.1 ++ "@odata.type" := by
    intro l hl p hp
    refine ⟨Or.inl fun e => hl (e ▸ List.mem_map.mpr ⟨p, hp, rfl⟩), ?_⟩
    exact append_type_ne_of_no_suffix hsuf
  have hconda : ∀ (l : List (String × Value)), k ∉ keysOf l → ∀ p ∈ l,
      (k ++ "@odata.type" ≠ p.1 ∨
        (goStartsWith p.1 "odata." || goEndsWith p.1 "@odata.type") = true) ∧
      k ++ "@odata.type" ≠ p.1 ++ "@odata.type" := by
    intro l hl p hp
    constructor
    · by_cases hpk : k ++ "@odata.type" = p.1
      · right
        rw [← hpk, goEndsWith_append]
        exact Bool.or_true _
      · exact Or.inl hpk
    · intro e
      exact hl (append_type_right_cancel e ▸ List.mem_map.mpr ⟨p, hp, rfl⟩)
  have hRk : List.lookup k (flattenLoop (flattenEntityPost entity) l₁ []) = none :=
    flattenLoop_frame (hcondk l₁ hk1)
  have hRa : List.lookup (k ++ "@odata.type")
      (flattenLoop (flattenEntityPost entity) l₁ []) = none :=
    flattenLoop_frame (hconda l₁ hk1)
  have hblank := @flattenStep_blank (flattenEntityPost entity)
    (flattenLoop (flattenEntityPost entity) l₁ []) k v hsuf hRk hRa
  constructor
  · rw [hre, flattenLoop_frame (hcondk l₂ hk2)]
    exact hblank.1
  · rw [hre, flattenLoop_frame (hconda l₂ hk2)]
    exact hblank.2

theorem append_type_not_reserved (k : String) :
    k ++ "@odata.type" ≠ "PartitionKey" ∧ k ++ "@odata.type" ≠ "RowKey" ∧
    k ++ "@odata.type" ≠ "Timestamp" := by
  refine ⟨fun e => ?_, fun e => ?_, fun e => ?_⟩ <;>
  · have h := goEndsWith_append k
    rw [e] at h
    exact absurd h (by decide)

theorem lookup_post_type {entity : List (String × Value)} {k : String} :
    List.lookup (k ++ "@odata.type") (flattenEntityPost entity) =
      List.lookup (k ++ "@odata.type") entity := by
  obtain ⟨h1, h2, h3⟩ := append_type_not_reserved k
  exact lookup_flattenEntityPost h1 h2 h3

theorem not_mem_keys_flattenEntity_of {entity : List (String × Value)} {r : String}
    (hsuf : goEndsWith r "@odata.type" = false)
    (hres : ∀ p : String × Value, p ∈ flattenEntityPost entity → p.1 ≠ r) :
    r ∉ keysOf (flattenEntity entity) := by
  intro h
  obtain ⟨p, hp, ⟨hfp, hfs⟩, hkey⟩ := keysOf_flattenEntity_sub h
  rcases hkey with e | e
  · exact hres p hp e.symm
  · rw [e, goEndsWith_append] at hsuf
    exact Bool.noConfusion hsuf

/-- C6: the reserved keys `PartitionKey`, `RowKey`, `Timestamp` never occur
as keys of the decode output, whatever the input mapping holds. -/
theorem flattenEntity_reserved_absent (entity : List (String × Value)) :
    List.lookup "PartitionKey" (flattenEntity entity) = none ∧
    List.lookup "RowKey" (flattenEntity entity) = none ∧
    List.lookup "Timestamp" (flattenEntity entity) = none := by
  refine ⟨lookup_eq_none_of_not_mem_keys (not_mem_keys_flattenEntity_of (by decide) ?_),
          lookup_eq_none_of_not_mem_keys (not_mem_keys_flattenEntity_of (by decide) ?_),
          lookup_eq_none_of_not_mem_keys (not_mem_keys_flattenEntity_of (by decide) ?_)⟩ <;>
  · intro p hp
    have hm := mem_flattenEntityPost.mp hp
    tauto

/-- C3 counterexample: the routine mutates its argument.  On the input map
`{PartitionKey: "p", name: "x"}` the `delete(entity, "PartitionKey")`
statement removes a key from the caller's map, so after the call the input
no longer holds the pairs it held before. -/
theorem flattenEntity_mutates_input_cex :
    flattenEntityPost [(("PartitionKey" : String), Value.str "p"), ("name", Value.str "x")] ≠
      [(("PartitionKey" : String), Value.str "p"), ("name", Value.str "x")] := by decide

/-- C3 (amended): the only in-place effect of the routine on its argument
map is the deletion of the three reserved keys; a pair survives in the
argument map exactly when its key is none of `PartitionKey`, `RowKey`,
`Timestamp`. -/
theorem flattenEntity_input_mutation (entity : List (String × Value)) (k : String) (v : Value) :
    (k, v) ∈ flattenEntityPost entity ↔
      (k, v) ∈ entity ∧ k ≠ "PartitionKey" ∧ k ≠ "RowKey" ∧ k ≠ "Timestamp" :=
  mem_flattenEntityPost

/-- C9: every key of the decode output avoids the `odata.` service-metadata
namespace, and is either a surviving non-reserved, non-metadata input key or
the synthesized `@odata.type` companion of such a key. -/
theorem flattenEntity_keys_characterization (entity : List (String × Value)) :
    ∀ key ∈ keysOf (flattenEntity entity),
      goStartsWith key "odata." = false ∧
      ((key ∈ keysOf entity ∧ key ≠ "PartitionKey" ∧ key ≠ "RowKey" ∧ key ≠ "Timestamp" ∧
          goStartsWith key "odata." = false ∧ goEndsWith key "@odata.type" = false) ∨
        (∃ kb, key = kb ++ "@odata.type" ∧ kb ∈ keysOf entity ∧ kb ≠ "PartitionKey" ∧
          kb ≠ "RowKey" ∧ kb ≠ "Timestamp" ∧ goStartsWith kb "odata." = false ∧
          goEndsWith kb "@odata.type" = false)) := by
  intro key h
  obtain ⟨p, hp, ⟨hfp, hfs⟩, hkey⟩ := keysOf_flattenEntity_sub h
  obtain ⟨hmem, h1, h2, h3⟩ := mem_flattenEntityPost.mp hp
  have hmemk : p.1 ∈ keysOf entity := List.mem_map.mpr ⟨p, hmem, rfl⟩
  rcases hkey with e | e
  · subst e
    exact ⟨hfp, Or.inl ⟨hmemk, h1, h2, h3, hfp, hfs⟩⟩
  · subst e
    exact ⟨goStartsWith_append_type hfp, Or.inr ⟨p.1, rfl, hmemk, h1, h2, h3, hfp, hfs⟩⟩

/-- C9 witness: instance of the key characterization for the synthesized
key `active@odata.type` on the input `{active: true}`. -/
theorem flattenEntity_keys_characterization_witness :
    goStartsWith "active@odata.type" "odata." = false ∧
    (("active@odata.type" ∈ keysOf [(("active" : String), Value.bool true)] ∧
        "active@odata.type" ≠ "PartitionKey" ∧ "active@odata.type" ≠ "RowKey" ∧
        "active@odata.type" ≠ "Timestamp" ∧
        goStartsWith "active@odata.type" "odata." = false ∧
        goEndsWith "active@odata.type" "@odata.type" = false) ∨
      (∃ kb, "active@odata.type" = kb ++ "@odata.type" ∧
        kb ∈ keysOf [(("active" : String), Value.bool true)] ∧ kb ≠ "PartitionKey" ∧
        kb ≠ "RowKey" ∧ kb ≠ "Timestamp" ∧ goStartsWith kb "odata." = false ∧
        goEndsWith kb "@odata.type" = false)) :=
  flattenEntity_keys_characterization [(("active" : String), Value.bool true)]
    "active@odata.type" (by decide)

/-- C10 counterexample: the claim fails when the orphan annotation's base
key itself carries the `@odata.type` suffix.  In the input
`{x: true, x@odata.type@odata.type: "Edm.String"}` the key
`x@odata.type@odata.type` is an orphan annotation whose base
`x@odata.type` is absent from the input, yet the output does contain
`x@odata.type` (synthesized for the boolean property `x`). -/
theorem flattenEntity_orphan_cex :
    List.lookup "x@odata.type"
        [(("x" : String), Value.bool true),
         ("x@odata.type@odata.type", Value.str "Edm.String")] = none ∧
    List.lookup ("x@odata.type" ++ "@odata.type")
        [(("x" : String), Value.bool true),
         ("x@odata.type@odata.type", Value.str "Edm.String")] =
      some (Value.str "Edm.String") ∧
    List.lookup "x@odata.type"
        (flattenEntity [(("x" : String), Value.bool true),
          ("x@odata.type@odata.type", Value.str "Edm.String")]) =
      some (Value.str "Edm.Boolean") := by decide

/-- C10 (amended): an orphan annotation key `k@odata.type` whose base `k`
is absent from the input, where `k` does not itself end in `@odata.type`,
produces nothing: neither `k` nor `k@odata.type` occurs in the output. -/
theorem flattenEntity_orphan_dropped {entity : List (String × Value)} {k : String} {d : Value}
    (hk : k ∉ keysOf entity)
    (hsuf : goEndsWith k "@odata.type" = false)
    (_horph : List.lookup (k ++ "@odata.type") entity = some d) :
    List.lookup k (flattenEntity entity) = none ∧
    List.lookup (k ++ "@odata.type") (flattenEntity entity) = none := by
  constructor
  · refine lookup_eq_none_of_not_mem_keys ?_
    intro h
    obtain ⟨p, hp, ⟨hfp, hfs⟩, hkey⟩ := keysOf_flattenEntity_sub h
    obtain ⟨hmem, -, -, -⟩ := mem_flattenEntityPost.mp hp
    rcases hkey with e | e
    · exact hk (e ▸ List.mem_map.mpr ⟨p, hmem, rfl⟩)
    · rw [e, goEndsWith_append] at hsuf
      exact Bool.noConfusion hsuf
  · refine lookup_eq_none_of_not_mem_keys ?_
    intro h
    obtain ⟨p, hp, ⟨hfp, hfs⟩, hkey⟩ := keysOf_flattenEntity_sub h
    obtain ⟨hmem, -, -, -⟩ := mem_flattenEntityPost.mp hp
    rcases hkey with e | e
    · rw [← e, goEndsWith_append] at hfs
      exact Bool.noConfusion hfs
    · exact hk (append_type_right_cancel e ▸ List.mem_map.mpr ⟨p, hmem, rfl⟩)

/-- C10 witness: on the input `{y@odata.type: "Edm.String"}` the orphan
annotation with base `y` is discarded: neither `y` nor `y@odata.type`
occurs in the output. -/
theorem flattenEntity_orphan_dropped_witness :
    List.lookup "y" (flattenEntity [(("y@odata.type" : String), Value.str "Edm.String")]) = none ∧
    List.lookup ("y" ++ "@odata.type")
        (flattenEntity [(("y@odata.type" : String), Value.str "Edm.String")]) = none :=
  flattenEntity_orphan_dropped (d := Value.str "Edm.String") (by decide) (by decide) (by decide)

/-- C2 counterexample: for the annotated-`Edm.Double` property `d` holding
the float `3.5` (natural text `"3.5"`, `%f` text `"3.500000"`), the decode
emits the fixed six-fractional-digit rendering, not the value's natural
decimal form. -/
theorem flattenEntity_double_fixed_cex :
    List.lookup "d"
        (flattenEntity [(("d" : String), Value.num ⟨false, 3, "3.5", "3.500000"⟩),
          ("d@odata.type", Value.str "Edm.Double")]) =
      some (Value.str "3.500000") ∧
    GoFloat.sprint ⟨false, 3, "3.5", "3.500000"⟩ = "3.5" ∧
    ("3.500000" : String) ≠ "3.5" := by decide

/-- C2 (amended): for every float-valued property with an explicit
`Edm.Double` annotation, the decode emits the `fmt.Sprintf("%f", v)`
fixed six-fractional-digit rendering of the value (not its natural
`fmt.Sprint` form), and re-emits the annotation. -/
theorem flattenEntity_annotated_double {entity : List (String × Value)} {k : String}
    {f : GoFloat}
    (hN : (keysOf entity).Nodup) (hk : (k, Value.num f) ∈ entity)
    (hr1 : k ≠ "PartitionKey") (hr2 : k ≠ "RowKey") (hr3 : k ≠ "Timestamp")
    (hpre : goStartsWith k "odata." = false) (hsuf : goEndsWith k "@odata.type" = false)
    (hann : List.lookup (k ++ "@odata.type") entity = some (Value.str "Edm.Double")) :
    List.lookup k (flattenEntity entity) = some (Value.str f.sprintf6) ∧
    List.lookup (k ++ "@odata.type") (flattenEntity entity) =
      some (Value.str "Edm.Double") := by
  obtain ⟨e1, e2⟩ := flattenEntity_lookup_step hN hk hr1 hr2 hr3 hsuf
  have hfilter : ¬((goStartsWith k "odata." || goEndsWith k "@odata.type") = true) := by
    rw [hpre, hsuf]; simp
  have hann' : List.lookup (k ++ "@odata.type") (flattenEntityPost entity) =
      some (Value.str "Edm.Double") := by
    rw [lookup_post_type]; exact hann
  have hne : k ≠ k ++ "@odata.type" := append_type_ne_of_no_suffix hsuf
  rw [e1, e2]
  unfold flattenStep
  rw [if_neg hfilter, hann']
  simp only [flattenDispatch]
  rw [if_neg (by decide), if_pos (by decide)]
  constructor
  · rw [lookup_mapSet_ne hne, lookup_mapSet_self]
    rfl
  · rw [lookup_mapSet_self]

/-- C2 witness: instance of the amended claim on the input
`{d: 3.5, d@odata.type: "Edm.Double"}`. -/
theorem flattenEntity_annotated_double_witness :
    List.lookup "d"
        (flattenEntity [(("d" : String), Value.num ⟨false, 3, "3.5", "3.500000"⟩),
          ("d@odata.type", Value.str "Edm.Double")]) =
      some (Value.str "3.500000") ∧
    List.lookup ("d" ++ "@odata.type")
        (flattenEntity [(("d" : String), Value.num ⟨false, 3, "3.5", "3.500000"⟩),
          ("d@odata.type", Value.str "Edm.Double")]) =
      some (Value.str "Edm.Double") :=
  @flattenEntity_annotated_double
    [(("d" : String), Value.num ⟨false, 3, "3.5", "3.500000"⟩),
     ("d@odata.type", Value.str "Edm.Double")]
    "d" ⟨false, 3, "3.5", "3.500000"⟩ (by decide) (by decide) (by decide) (by decide)
    (by decide) (by decide) (by decide) (by decide)

/-- C4 counterexample: re-decoding a decode output is not the identity on
string-typed values under an `Edm.Double` annotation: the string
`"3.500000"` is pushed through Go's `%f` verb, which rejects a string
operand and yields `"%!f(string=3.500000)"`. -/
theorem flattenEntity_idem_double_cex :
    List.lookup "d"
        (flattenEntity [(("d" : String), Value.str "3.500000"),
          ("d@odata.type", Value.str "Edm.Double")]) =
      some (Value.str "%!f(string=3.500000)") ∧
    Value.str "%!f(string=3.500000)" ≠ Value.str "3.500000" := by decide

/-- C4 (amended): re-decoding leaves an already-string-typed value
unchanged for the recognized annotations `Edm.Boolean`, `Edm.Int32`,
`Edm.Int64` and `Edm.String`; for `Edm.Double` it does not (see the
counterexample), because the `%f` formatter mangles string operands. -/
theorem flattenEntity_idem_on_strings {entity : List (String × Value)} {k s T : String}
    (hN : (keysOf entity).Nodup) (hk : (k, Value.str s) ∈ entity)
    (hr1 : k ≠ "PartitionKey") (hr2 : k ≠ "RowKey") (hr3 : k ≠ "Timestamp")
    (hpre : goStartsWith k "odata." = false) (hsuf : goEndsWith k "@odata.type" = false)
    (hann : List.lookup (k ++ "@odata.type") entity = some (Value.str T))
    (hT : T = "Edm.Boolean" ∨ T = "Edm.Int32" ∨ T = "Edm.Int64" ∨ T = "Edm.String") :
    List.lookup k (flattenEntity entity) = some (Value.str s) ∧
    List.lookup (k ++ "@odata.type") (flattenEntity entity) = some (Value.str T) := by
  obtain ⟨e1, e2⟩ := flattenEntity_lookup_step hN hk hr1 hr2 hr3 hsuf
  have hfilter : ¬((goStartsWith k "odata." || goEndsWith k "@odata.type") = true) := by
    rw [hpre, hsuf]; simp
  have hann' : List.lookup (k ++ "@odata.type") (flattenEntityPost entity) =
      some (Value.str T) := by
    rw [lookup_post_type]; exact hann
  have hne : k ≠ k ++ "@odata.type" := append_type_ne_of_no_suffix hsuf
  rw [e1, e2]
  unfold flattenStep
  rw [if_neg hfilter, hann']
  simp only [flattenDispatch]
  rcases hT with e | e | e | e <;> subst e
  · rw [if_pos (by decide)]
    exact ⟨by rw [lookup_mapSet_ne hne, lookup_mapSet_self]; rfl, by rw [lookup_mapSet_self]⟩
  · rw [if_neg (by decide), if_neg (by decide), if_pos (by decide)]
    exact ⟨by rw [lookup_mapSet_ne hne, lookup_mapSet_self]; rfl, by rw [lookup_mapSet_self]⟩
  · rw [if_neg (by decide), if_neg (by decide), if_pos (by decide)]
    exact ⟨by rw [lookup_mapSet_ne hne, lookup_mapSet_self]; rfl, by rw [lookup_mapSet_self]⟩
  · rw [if_neg (by decide), if_neg (by decide), if_neg (by decide), if_pos (by decide)]
    exact ⟨by rw [lookup_mapSet_ne hne, lookup_mapSet_self], by rw [lookup_mapSet_self]⟩

/-- C4 witness: instance of the amended claim on the re-decode input
`{b: "true", b@odata.type: "Edm.Boolean"}`. -/
theorem flattenEntity_idem_on_strings_witness :
    List.lookup "b"
        (flattenEntity [(("b" : String), Value.str "true"),
          ("b@odata.type", Value.str "Edm.Boolean")]) =
      some (Value.str "true") ∧
    List.lookup ("b" ++ "@odata.type")
        (flattenEntity [(("b" : String), Value.str "true"),
          ("b@odata.type", Value.str "Edm.Boolean")]) =
      some (Value.str "Edm.Boolean") :=
  @flattenEntity_idem_on_strings
    [(("b" : String), Value.str "true"), ("b@odata.type", Value.str "Edm.Boolean")]
    "b" "true" "Edm.Boolean" (by decide) (by decide) (by decide) (by decide)
    (by decide) (by decide) (by decide) (by decide) (Or.inl rfl)

/-- C7: an unannotated float property whose value passes the Go test
`v == float64(int64(v))` is emitted as the decimal text of its `int64`
truncation (`fmt.Sprintf("%d", ...)`) and annotated `Edm.Int32`. -/
theorem flattenEntity_float_integral {entity : List (String × Value)} {k : String}
    {f : GoFloat}
    (hN : (keysOf entity).Nodup) (hk : (k, Value.num f) ∈ entity)
    (hr1 : k ≠ "PartitionKey") (hr2 : k ≠ "RowKey") (hr3 : k ≠ "Timestamp")
    (hpre : goStartsWith k "odata." = false) (hsuf : goEndsWith k "@odata.type" = false)
    (hann : List.lookup (k ++ "@odata.type") entity = none)
    (hint : f.isIntegral = true) :
    List.lookup k (flattenEntity entity) = some (Value.str (goSprintfD f.intVal)) ∧
    List.lookup (k ++ "@odata.type") (flattenEntity entity) =
      some (Value.str "Edm.Int32") := by
  obtain ⟨e1, e2⟩ := flattenEntity_lookup_step hN hk hr1 hr2 hr3 hsuf
  have hfilter : ¬((goStartsWith k "odata." || goEndsWith k "@odata.type") = true) := by
    rw [hpre, hsuf]; simp
  have hann' : List.lookup (k ++ "@odata.type") (flattenEntityPost entity) = none := by
    rw [lookup_post_type]; exact hann
  have hne : k ≠ k ++ "@odata.type" := append_type_ne_of_no_suffix hsuf
  rw [e1, e2]
  unfold flattenStep
  rw [if_neg hfilter, hann']
  simp only [flattenDispatch]
  rw [if_pos hint]
  exact ⟨by rw [lookup_mapSet_ne hne, lookup_mapSet_self], by rw [lookup_mapSet_self]⟩

/-- C7 witness: the Go literal `42.0` (integral, truncation 42) decodes to
`"42"` with annotation `Edm.Int32`. -/
theorem flattenEntity_float_integral_witness :
    List.lookup "n"
        (flattenEntity [(("n" : String), Value.num ⟨true, 42, "42", "42.000000"⟩)]) =
      some (Value.str "42") ∧
    List.lookup ("n" ++ "@odata.type")
        (flattenEntity [(("n" : String), Value.num ⟨true, 42, "42", "42.000000"⟩)]) =
      some (Value.str "Edm.Int32") :=
  @flattenEntity_float_integral
    [(("n" : String), Value.num ⟨true, 42, "42", "42.000000"⟩)]
    "n" ⟨true, 42, "42", "42.000000"⟩ (by decide) (by decide) (by decide) (by decide)
    (by decide) (by decide) (by decide) (by decide) (by decide)

/-- C8: an unannotated float property whose value fails the Go test
`v == float64(int64(v))` is emitted as its natural `fmt.Sprint` text and
annotated `Edm.Double`. -/
theorem flattenEntity_float_nonintegral {entity : List (String × Value)} {k : String}
    {f : GoFloat}
    (hN : (keysOf entity).Nodup) (hk : (k, Value.num f) ∈ entity)
    (hr1 : k ≠ "PartitionKey") (hr2 : k ≠ "RowKey") (hr3 : k ≠ "Timestamp")
    (hpre : goStartsWith k "odata." = false) (hsuf : goEndsWith k "@odata.type" = false)
    (hann : List.lookup (k ++ "@odata.type") entity = none)
    (hint : f.isIntegral = false) :
    List.lookup k (flattenEntity entity) = some (Value.str f.sprint) ∧
    List.lookup (k ++ "@odata.type") (flattenEntity entity) =
      some (Value.str "Edm.Double") := by
  obtain ⟨e1, e2⟩ := flattenEntity_lookup_step hN hk hr1 hr2 hr3 hsuf
  have hfilter : ¬((goStartsWith k "odata." || goEndsWith k "@odata.type") = true) := by
    rw [hpre, hsuf]; simp
  have hann' : List.lookup (k ++ "@odata.type") (flattenEntityPost entity) = none := by
    rw [lookup_post_type]; exact hann
  have hne : k ≠ k ++ "@odata.type" := append_type_ne_of_no_suffix hsuf
  rw [e1, e2]
  unfold flattenStep
  rw [if_neg hfilter, hann']
  simp only [flattenDispatch]
  rw [if_neg (by rw [hint]; simp)]
  exact ⟨by rw [lookup_mapSet_ne hne, lookup_mapSet_self], by rw [lookup_mapSet_self]⟩

/-- C8 witness: the Go literal `3.5` (non-integral, `fmt.Sprint` text
`"3.5"`) decodes to `"3.5"` with annotation `Edm.Double`. -/
theorem flattenEntity_float_nonintegral_witness :
    List.lookup "n"
        (flattenEntity [(("n" : String), Value.num ⟨false, 3, "3.5", "3.500000"⟩)]) =
      some (Value.str "3.5") ∧
    List.lookup ("n" ++ "@odata.type")
        (flattenEntity [(("n" : String), Value.num ⟨false, 3, "3.5", "3.500000"⟩)]) =
      some (Value.str "Edm.Double") :=
  @flattenEntity_float_nonintegral
    [(("n" : String), Value.num ⟨false, 3, "3.5", "3.500000"⟩)]
    "n" ⟨false, 3, "3.5", "3.500000"⟩ (by decide) (by decide) (by decide) (by decide)
    (by decide) (by decide) (by decide) (by decide) (by decide)

/-- C5: a property whose annotation names an unrecognized Edm type is
dropped: neither the property nor its annotation key reaches the output,
the decode still returns a mapping, and every other translatable property
(non-reserved, non-metadata key whose annotation, if any, is recognized)
is still emitted. -/
theorem flattenEntity_unknown_type_skipped {entity : List (String × Value)} {k : String}
    {v d : Value}
    (hN : (keysOf entity).Nodup) (hk : (k, v) ∈ entity)
    (hr1 : k ≠ "PartitionKey") (hr2 : k ≠ "RowKey") (hr3 : k ≠ "Timestamp")
    (hpre : goStartsWith k "odata." = false) (hsuf : goEndsWith k "@odata.type" = false)
    (hann : List.lookup (k ++ "@odata.type") entity = some d)
    (hd1 : d ≠ Value.str "Edm.Boolean") (hd2 : d ≠ Value.str "Edm.Double")
    (hd3 : d ≠ Value.str "Edm.Int32") (hd4 : d ≠ Value.str "Edm.Int64")
    (hd5 : d ≠ Value.str "Edm.String") :
    List.lookup k (flattenEntity entity) = none ∧
    List.lookup (k ++ "@odata.type") (flattenEntity entity) = none ∧
    (∀ k₂ v₂, (k₂, v₂) ∈ entity → k₂ ≠ "PartitionKey" → k₂ ≠ "RowKey" → k₂ ≠ "Timestamp" →
      goStartsWith k₂ "odata." = false → goEndsWith k₂ "@odata.type" = false → k₂ ≠ k →
      (∀ d₂, List.lookup (k₂ ++ "@odata.type") entity = some d₂ →
        d₂ = Value.str "Edm.Boolean" ∨ d₂ = Value.str "Edm.Double" ∨
        d₂ = Value.str "Edm.Int32" ∨ d₂ = Value.str "Edm.Int64" ∨
        d₂ = Value.str "Edm.String") →
      (List.lookup k₂ (flattenEntity entity)).isSome = true) := by
  obtain ⟨e1, e2⟩ := flattenEntity_lookup_step hN hk hr1 hr2 hr3 hsuf
  have hfilter : ¬((goStartsWith k "odata." || goEndsWith k "@odata.type") = true) := by
    rw [hpre, hsuf]; simp
  have hann' : List.lookup (k ++ "@odata.type") (flattenEntityPost entity) = some d := by
    rw [lookup_post_type]; exact hann
  have hor : ¬((d == Value.str "Edm.Int32" || d == Value.str "Edm.Int64") = true) := by
    intro hc
    rcases (by simpa using hc : d = Value.str "Edm.Int32" ∨ d = Value.str "Edm.Int64") with
      e | e
    · exact hd3 e
    · exact hd4 e
  refine ⟨?_, ?_, ?_⟩
  · rw [e1]
    unfold flattenStep
    rw [if_neg hfilter, hann']
    simp only [flattenDispatch]
    rw [if_neg (fun hc => hd1 (by simpa using hc)), if_neg (fun hc => hd2 (by simpa using hc)),
        if_neg hor, if_neg (fun hc => hd5 (by simpa using hc))]
    rfl
  · rw [e2]
    unfold flattenStep
    rw [if_neg hfilter, hann']
    simp only [flattenDispatch]
    rw [if_neg (fun hc => hd1 (by simpa using hc)), if_neg (fun hc => hd2 (by simpa using hc)),
        if_neg hor, if_neg (fun hc => hd5 (by simpa using hc))]
    rfl
  · intro k₂ v₂ hk₂ h1 h2 h3 hp hs _ hrec
    obtain ⟨f1, -⟩ := flattenEntity_lookup_step hN hk₂ h1 h2 h3 hs
    have hfilter₂ : ¬((goStartsWith k₂ "odata." || goEndsWith k₂ "@odata.type") = true) := by
      rw [hp, hs]; simp
    have hne₂ : k₂ ≠ k₂ ++ "@odata.type" := append_type_ne_of_no_suffix hs
    rw [f1]
    unfold flattenStep
    rw [if_neg hfilter₂]
    cases hl : List.lookup (k₂ ++ "@odata.type") (flattenEntityPost entity) with
    | some d₂ =>
      have hl' : List.lookup (k₂ ++ "@odata.type") entity = some d₂ := by
        rw [← lookup_post_type]; exact hl
      simp only [flattenDispatch]
      rcases hrec d₂ hl' with e | e | e | e | e <;> subst e <;>
        simp [lookup_mapSet_ne hne₂, lookup_mapSet_self]
    | none =>
      cases v₂ with
      | bool b => simp [flattenDispatch, lookup_mapSet_ne hne₂, lookup_mapSet_self]
      | num f₂ =>
        simp only [flattenDispatch]
        split_ifs <;> simp [lookup_mapSet_ne hne₂, lookup_mapSet_self]
      | str s₂ => simp [flattenDispatch, lookup_mapSet_self]

/-- C5 witness: on `{status: "x", status@odata.type: "Edm.Unsupported",
name: "y"}` the `status` property vanishes entirely while `name` is still
emitted. -/
theorem flattenEntity_unknown_type_skipped_witness :
    List.lookup "status"
        (flattenEntity [(("status" : String), Value.str "x"),
          ("status@odata.type", Value.str "Edm.Unsupported"),
          ("name", Value.str "y")]) = none ∧
    List.lookup ("status" ++ "@odata.type")
        (flattenEntity [(("status" : String), Value.str "x"),
          ("status@odata.type", Value.str "Edm.Unsupported"),
          ("name", Value.str "y")]) = none ∧
    (List.lookup "name"
        (flattenEntity [(("status" : String), Value.str "x"),
          ("status@odata.type", Value.str "Edm.Unsupported"),
          ("name", Value.str "y")])).isSome = true := by
  have h := @flattenEntity_unknown_type_skipped
    [(("status" : String), Value.str "x"),
     ("status@odata.type", Value.str "Edm.Unsupported"),
     ("name", Value.str "y")]
    "status" (Value.str "x") (Value.str "Edm.Unsupported")
    (by decide) (by decide) (by decide) (by decide) (by decide) (by decide) (by decide)
    (by decide) (by decide) (by decide) (by decide) (by decide) (by decide)
  have hnone : List.lookup ("name" ++ "@odata.type")
      [(("status" : String), Value.str "x"),
       ("status@odata.type", Value.str "Edm.Unsupported"),
       ("name", Value.str "y")] = none := by decide
  refine ⟨h.1, h.2.1, h.2.2 "name" (Value.str "y") (by decide) (by decide) (by decide)
    (by decide) (by decide) (by decide) (by decide) ?_⟩
  intro d₂ hd₂
  rw [hnone] at hd₂
  exact Option.noConfusion hd₂
